import Mathlib

/-!
Verification development for `kwin_dashboard.py` (KWin-Dashboard).

The Python source is shallowly embedded: dict-shaped records become
structures with `Option` fields for keys that may be absent, Python
truthiness is made explicit, stateful external calls (D-Bus, journalctl,
wall-clock time, shortcut invocation) become explicit parameters or
oracles, and the WebSocket push/dispatch loops become pure step
functions over that data.
-/

namespace KwinDashboard

/-- Truthiness of an optional Python string: `None` and `""` are falsy. -/
def truthyS : Option String → Bool
  | none => false
  | some s => s ≠ ""

/-- Geometry dict as produced by `rectToObj`: every key may be absent. -/
structure Geometry where
  gx : Option Int
  gy : Option Int
  gwidth : Option Int
  gheight : Option Int
  deriving Repr, DecidableEq

/-- Output dict (`outputToObj` in the injected script): `name`, `model` and
`geometry` keys, each possibly `null`/absent. -/
structure OutputRec where
  name : Option String
  model : Option String
  geometry : Option Geometry
  deriving Repr, DecidableEq

/-- Flat window record as decoded by `parse_json_lines` and enriched by
`enrich_app_names`. Boolean flags are stored after Python truthiness. -/
structure WindowRecord where
  pid : Option Int
  caption : Option String
  windowId : Option String
  internalId : Option String
  idField : Option String
  onAllDesktops : Bool
  desktops : Option (List String)
  output : Option OutputRec
  minimized : Bool
  maximized : Bool
  fullScreen : Bool
  active : Bool
  appName : Option String
  appExec : Option String
  deriving Repr, DecidableEq

/-- Meta record (`__type == "meta"`): output list, desktop-name list
(each entry's `name` key) and the active desktop name. -/
structure MetaRecord where
  outputs : List OutputRec
  desktops : List (Option String)
  activeDesktopName : Option String
  deriving Repr, DecidableEq

/-- Projected window view emitted by `build_desktop_windows`. -/
structure WindowView where
  id : Option String
  title : Option String
  pid : Option Int
  caption : Option String
  on_all_desktops : Bool
  minimized : Bool
  maximized : Bool
  fullScreen : Bool
  appExec : Option String
  active : Bool
  deriving Repr, DecidableEq

/-- One desktop entry of a monitor in the built snapshot. -/
structure DesktopView where
  desktop_name : String
  desktop_is_active : Bool
  windows : List WindowView
  deriving Repr, DecidableEq

/-- One monitor entry of the built snapshot (`build_monitors` loop body). -/
structure MonitorView where
  monitor_id : Int
  monitor_name : Option String
  monitor_x : Option Int
  monitor_y : Option Int
  monitor_width : Option Int
  monitor_height : Option Int
  reserved_bottom : Int
  on_all_desktops : Bool
  desktops : List DesktopView
  deriving Repr, DecidableEq

/-- Full snapshot payload (`build_payload`). The acquisition timestamp
`round(time.time(), 2)` is modelled as an abstract tick count passed in
explicitly; two calls at different wall-clock instants get different ticks. -/
structure Payload where
  service : String
  timestamp : Nat
  monitors : List MonitorView
  deriving Repr, DecidableEq

/-! ## Python string primitives over character lists -/

/-- Whitespace set of Python's `str.strip` and argument-less `str.split`. -/
def pyWs (c : Char) : Bool :=
  c = ' ' ∨ c = '\t' ∨ c = '\n' ∨ c = '\r' ∨ c = '\x0b' ∨ c = '\x0c'

/-- Drop characters satisfying `p` from both ends of a character list. -/
def stripEnds (p : Char → Bool) (l : List Char) : List Char :=
  ((l.dropWhile p).reverse.dropWhile p).reverse

/-- Python `str.strip()` with no argument. -/
def pyStrip (s : String) : String :=
  String.mk (stripEnds pyWs s.toList)

/-- Python `str.lower()` (ASCII range, which covers the handles compared). -/
def pyLower (s : String) : String :=
  String.mk (s.toList.map Char.toLower)

/-- Membership in the strip set of `str.strip("\x7b\x7d")`. -/
def isBraceChar (c : Char) : Bool :=
  c = '\x7b' ∨ c = '\x7d'

/-- Python `str.split()` tokenizer: split on whitespace runs, no empty
parts; `acc` holds the current token reversed. -/
def pySplitGo : List Char → List Char → List String
  | [], acc => if acc = [] then [] else [String.mk acc.reverse]
  | c :: rest, acc =>
    if pyWs c then
      if acc = [] then pySplitGo rest []
      else String.mk acc.reverse :: pySplitGo rest []
    else pySplitGo rest (c :: acc)

/-- Python `value.split()`. -/
def pySplit (s : String) : List String :=
  pySplitGo s.toList []

/-- Does the string start with `%` (Python `part.startswith("%")`). -/
def startsWithPct (s : String) : Bool :=
  match s.toList with
  | [] => false
  | c :: _ => c = '%'

/-! ## Identifier normalizer (`normalize_winid`, `find_window_for_id`) -/

/-- Embedding of `normalize_winid`: falsy input gives `""`, otherwise
`winid.strip().lower().strip("\x7b\x7d")`. -/
def normalizeWinid (winid : Option String) : String :=
  match winid with
  | none => ""
  | some s =>
    if s = "" then ""
    else String.mk (stripEnds isBraceChar ((stripEnds pyWs s.toList).map Char.toLower))

/-- One window record matches a target id when the canonical target equals
the canonical form of its `internalId`, `windowId` or `id` field. -/
def matchesWinid (w : WindowRecord) (target : String) : Bool :=
  normalizeWinid w.internalId = target
    ∨ normalizeWinid w.windowId = target
    ∨ normalizeWinid w.idField = target

/-- Embedding of the scan loop of `find_window_for_id`: per window the
three handle fields are checked in order; the first hit wins. -/
def findWindowScan (target : String) : List WindowRecord → Option WindowRecord
  | [] => none
  | w :: rest =>
    if normalizeWinid w.internalId = target then some w
    else if normalizeWinid w.windowId = target then some w
    else if normalizeWinid w.idField = target then some w
    else findWindowScan target rest

/-- Embedding of `find_window_for_id`: empty canonical target never
resolves to a record. -/
def findWindowForId (windows : List WindowRecord) (winid : Option String) : Option WindowRecord :=
  let target := normalizeWinid winid
  if target = "" then none
  else findWindowScan target windows

/-! ## Snapshot builder -/

/-- Python `a or b` on optional strings: `a` when truthy, else `b`. -/
def orS (a b : Option String) : Option String :=
  if truthyS a then a else b

/-- Embedding of `format_monitor_name`. -/
def formatMonitorName (out : OutputRec) : Option String :=
  if truthyS out.model ∧ truthyS out.name then
    some ((out.model.getD "") ++ " [" ++ (out.name.getD "") ++ "]")
  else orS out.model out.name

/-- Name of the output a window sits on: `(w.get("output") or \x7b\x7d).get("name")`. -/
def windowOutputName (w : WindowRecord) : Option String :=
  match w.output with
  | none => none
  | some o => o.name

/-- Helper for the fallback branch of `collect_outputs`: keep the first
output dict seen for each truthy output name, in first-seen order. -/
def collectOutputsFromWindows : List OutputRec → List WindowRecord → List OutputRec
  | acc, [] => acc
  | acc, w :: rest =>
    match w.output with
    | none => collectOutputsFromWindows acc rest
    | some o =>
      match o.name with
      | none => collectOutputsFromWindows acc rest
      | some n =>
        if n = "" then collectOutputsFromWindows acc rest
        else if acc.any (fun o2 => o2.name = some n) then collectOutputsFromWindows acc rest
        else collectOutputsFromWindows (acc ++ [o]) rest

/-- Embedding of `collect_outputs`: prefer the meta output list, else
derive from window output descriptions. -/
def collectOutputs (meta : MetaRecord) (windows : List WindowRecord) : List OutputRec :=
  if meta.outputs ≠ [] then meta.outputs
  else collectOutputsFromWindows [] windows

/-- Helper for the fallback branch of `collect_desktop_names`: ordered
unique names from one membership list, excluding the `"ALL"` sentinel. -/
def addDesktopNames : List String → List String → List String
  | acc, [] => acc
  | acc, n :: ns =>
    if n = "ALL" then addDesktopNames acc ns
    else if n ∈ acc then addDesktopNames acc ns
    else addDesktopNames (acc ++ [n]) ns

/-- Fold of `addDesktopNames` over all windows, first-seen order. -/
def desktopNamesFromWindows : List String → List WindowRecord → List String
  | acc, [] => acc
  | acc, w :: rest => desktopNamesFromWindows (addDesktopNames acc (w.desktops.getD [])) rest

/-- Embedding of `collect_desktop_names`. -/
def collectDesktopNames (meta : MetaRecord) (windows : List WindowRecord) : List String :=
  let names := meta.desktops.filterMap id
  if names ≠ [] then names
  else desktopNamesFromWindows [] windows

/-- Insert `x` into a sorted list, after every element `y` with
`le y x`; with a total preorder `le` this is the insertion step of a
stable sort. -/
def insertIn (le : α → α → Bool) (x : α) : List α → List α
  | [] => [x]
  | y :: ys => if le y x then y :: insertIn le x ys else x :: y :: ys

/-- Stable ascending sort by `le` (insertion sort, equal elements keep
their input order), the embedding of Python's stable `sorted`/`list.sort`. -/
def stableSortBy (le : α → α → Bool) (l : List α) : List α :=
  l.foldl (fun acc x => insertIn le x acc) []

/-- Sort key of `sort_outputs_by_geometry`: `(y, x)` of the geometry,
a missing coordinate counting as 0. -/
def geoKey (out : OutputRec) : Int × Int :=
  match out.geometry with
  | none => (0, 0)
  | some g => (g.gy.getD 0, g.gx.getD 0)

/-- Boolean lexicographic order on integer pairs. -/
def pairLe (ka kb : Int × Int) : Bool :=
  if ka.1 ≠ kb.1 then ka.1 < kb.1 else ka.2 ≤ kb.2

/-- Boolean lexicographic comparison on the `(y, x)` key. -/
def geoKeyLe (a b : OutputRec) : Bool :=
  pairLe (geoKey a) (geoKey b)

/-- Embedding of `sort_outputs_by_geometry`: Python's `sorted` is a
stable ascending sort by the key. -/
def sortOutputsByGeometry (outputs : List OutputRec) : List OutputRec :=
  stableSortBy geoKeyLe outputs

/-- A window is selected for desktop `dname` when it is pinned or lists
`dname` among its desktop memberships. -/
def selectedForDesktop (dname : String) (w : WindowRecord) : Bool :=
  w.onAllDesktops ∨ dname ∈ w.desktops.getD []

/-- Truthy `windowId` check used by the dedup step (`if not win_id`). -/
def validWinId (w : WindowRecord) : Bool :=
  match w.windowId with
  | none => false
  | some s => s ≠ ""

/-- Dedup loop of `build_desktop_windows`: keep the first record per
`windowId`, dropping records with a falsy `windowId`. -/
def dedupByWinId : List String → List WindowRecord → List WindowRecord
  | _, [] => []
  | seen, w :: rest =>
    match w.windowId with
    | none => dedupByWinId seen rest
    | some s =>
      if s = "" then dedupByWinId seen rest
      else if s ∈ seen then dedupByWinId seen rest
      else w :: dedupByWinId (s :: seen) rest

/-- Sort key of the window ordering: `(pid is None, pid or 0, windowId or "")`. -/
def winKey (w : WindowRecord) : Bool × Int × String :=
  (w.pid.isNone, w.pid.getD 0, w.windowId.getD "")

/-- Boolean lexicographic order on (Bool, Int, String) triples, False
before True. -/
def tripLe (ka kb : Bool × Int × String) : Bool :=
  if ka.1 ≠ kb.1 then (!ka.1 && kb.1)
  else if ka.2.1 ≠ kb.2.1 then ka.2.1 < kb.2.1
  else ka.2.2 ≤ kb.2.2

/-- Boolean lexicographic comparison on `winKey` (no-pid last, then pid
ascending, then windowId ascending). -/
def winKeyLe (a b : WindowRecord) : Bool :=
  tripLe (winKey a) (winKey b)

/-- Projection of a window record to the view dict emitted per desktop. -/
def projWindow (w : WindowRecord) : WindowView :=
  { id := w.windowId
    title := w.appName
    pid := w.pid
    caption := w.caption
    on_all_desktops := w.onAllDesktops
    minimized := w.minimized
    maximized := w.maximized
    fullScreen := w.fullScreen
    appExec := w.appExec
    active := w.active }

/-- Desktop entry built for one name (`build_desktop_windows` loop body):
select, dedup by handle, stable-sort by `winKey`, project. -/
def mkDesktop (windows : List WindowRecord) (activeName : Option String) (dname : String) : DesktopView :=
  let wins := windows.filter (selectedForDesktop dname)
  let unique := dedupByWinId [] wins
  let sortedWins := stableSortBy winKeyLe unique
  { desktop_name := dname
    desktop_is_active := if truthyS activeName then activeName = some dname else false
    windows := sortedWins.map projWindow }

/-- Embedding of `build_desktop_windows`. -/
def buildDesktopWindows (desktopNames : List String) (windows : List WindowRecord)
    (activeName : Option String) : List DesktopView :=
  desktopNames.map (mkDesktop windows activeName)

/-- Windows hosted on one output: output-name equality, `None == None` included. -/
def windowsOnOutput (out : OutputRec) (windows : List WindowRecord) : List WindowRecord :=
  windows.filter (fun w => windowOutputName w = out.name)

/-- Monitor entry built from one sorted output (`build_monitors` loop body). -/
def mkMonitor (idx : Int) (out : OutputRec) (windows : List WindowRecord)
    (desktopNames : List String) (activeName : Option String) : MonitorView :=
  let wins := windowsOnOutput out windows
  let geom := out.geometry
  { monitor_id := idx
    monitor_name := formatMonitorName out
    monitor_x := geom.bind (·.gx)
    monitor_y := geom.bind (·.gy)
    monitor_width := geom.bind (·.gwidth)
    monitor_height := geom.bind (·.gheight)
    reserved_bottom := 48
    on_all_desktops := wins.all (·.onAllDesktops)
    desktops := buildDesktopWindows desktopNames wins activeName }

/-- Enumeration of the sorted outputs with 1-based monitor ids. -/
def buildMonitorsFrom (idx : Int) (windows : List WindowRecord)
    (desktopNames : List String) (activeName : Option String) : List OutputRec → List MonitorView
  | [] => []
  | out :: rest =>
    mkMonitor idx out windows desktopNames activeName
      :: buildMonitorsFrom (idx + 1) windows desktopNames activeName rest

/-- Embedding of `build_monitors`. -/
def buildMonitors (meta : MetaRecord) (windows : List WindowRecord) : List MonitorView :=
  let outputs := sortOutputsByGeometry (collectOutputs meta windows)
  let desktopNames := collectDesktopNames meta windows
  buildMonitorsFrom 1 windows desktopNames meta.activeDesktopName outputs

/-- Embedding of `build_payload` with the acquisition time explicit. -/
def buildPayload (service : String) (timestamp : Nat) (meta : MetaRecord)
    (windows : List WindowRecord) : Payload :=
  { service := service
    timestamp := timestamp
    monitors := buildMonitors meta windows }

/-! ## Payload queries used by the dispatcher -/

/-- All window views of a monitor, flattened across its desktops. -/
def monitorWindows (m : MonitorView) : List WindowView :=
  m.desktops.flatMap (·.windows)

/-- All window views of a payload in scan order. -/
def payloadWindows (p : Payload) : List WindowView :=
  p.monitors.flatMap monitorWindows

/-- Embedding of `find_window_pinned`: first view whose `id` equals the
target (plain string equality), returning its pinned flag. -/
def findWindowPinned (p : Payload) (windowId : String) : Option Bool :=
  match (payloadWindows p).find? (fun v => v.id = some windowId) with
  | none => none
  | some v => some v.on_all_desktops

/-- Embedding of `find_window_fullscreen` (False when not found). -/
def findWindowFullscreen (p : Payload) (windowId : String) : Bool :=
  match (payloadWindows p).find? (fun v => v.id = some windowId) with
  | none => false
  | some v => v.fullScreen

/-- Embedding of `find_window_monitor`: id of the first monitor hosting a
view with the target id. -/
def findWindowMonitor (p : Payload) (windowId : String) : Option Int :=
  match p.monitors.find? (fun m => (monitorWindows m).any (fun v => v.id = some windowId)) with
  | none => none
  | some m => some m.monitor_id

/-- Embedding of `is_monitor_all_pinned`: `None` target or unknown
monitor or empty window list gives False; otherwise all views pinned. -/
def isMonitorAllPinned (p : Payload) (monitorId : Option Int) : Bool :=
  match monitorId with
  | none => false
  | some mid =>
    match p.monitors.find? (fun m => m.monitor_id = mid) with
    | none => false
    | some m =>
      let ws := monitorWindows m
      if ws = [] then false
      else ws.all (·.on_all_desktops)

/-! ## Stable-key JSON serialization (`json.dumps(..., sort_keys=True,
separators=(",", ":"))`) -/

/-- Escape of the two JSON-critical characters; the payloads compared by
the push loop contain no control characters. -/
def jsonEscape (s : String) : String :=
  s.toList.foldl
    (fun acc c =>
      if c = '"' then acc ++ "\\\""
      else if c = '\\' then acc ++ "\\\\"
      else acc.push c)
    ""

/-- JSON string literal. -/
def jsonStr (s : String) : String := "\"" ++ jsonEscape s ++ "\""

/-- JSON value for an optional string (`null` for absent). -/
def jsonOptStr : Option String → String
  | none => "null"
  | some s => jsonStr s

/-- JSON value for an optional integer. -/
def jsonOptInt : Option Int → String
  | none => "null"
  | some i => toString i

/-- JSON boolean. -/
def jsonBool : Bool → String
  | true => "true"
  | false => "false"

/-- JSON array with compact separators. -/
def jsonArr (items : List String) : String :=
  "[" ++ String.intercalate "," items ++ "]"

/-- Window view serialized with its keys in sorted order. -/
def serWindow (v : WindowView) : String :=
  "\x7b\"active\":" ++ jsonBool v.active
    ++ ",\"appExec\":" ++ jsonOptStr v.appExec
    ++ ",\"caption\":" ++ jsonOptStr v.caption
    ++ ",\"fullScreen\":" ++ jsonBool v.fullScreen
    ++ ",\"id\":" ++ jsonOptStr v.id
    ++ ",\"maximized\":" ++ jsonBool v.maximized
    ++ ",\"minimized\":" ++ jsonBool v.minimized
    ++ ",\"on_all_desktops\":" ++ jsonBool v.on_all_desktops
    ++ ",\"pid\":" ++ jsonOptInt v.pid
    ++ ",\"title\":" ++ jsonOptStr v.title
    ++ "\x7d"

/-- Desktop view serialized with its keys in sorted order. -/
def serDesktop (d : DesktopView) : String :=
  "\x7b\"desktop_is_active\":" ++ jsonBool d.desktop_is_active
    ++ ",\"desktop_name\":" ++ jsonStr d.desktop_name
    ++ ",\"windows\":" ++ jsonArr (d.windows.map serWindow)
    ++ "\x7d"

/-- Monitor view serialized with its keys in sorted order. -/
def serMonitor (m : MonitorView) : String :=
  "\x7b\"desktops\":" ++ jsonArr (m.desktops.map serDesktop)
    ++ ",\"monitor_height\":" ++ jsonOptInt m.monitor_height
    ++ ",\"monitor_id\":" ++ toString m.monitor_id
    ++ ",\"monitor_name\":" ++ jsonOptStr m.monitor_name
    ++ ",\"monitor_width\":" ++ jsonOptInt m.monitor_width
    ++ ",\"monitor_x\":" ++ jsonOptInt m.monitor_x
    ++ ",\"monitor_y\":" ++ jsonOptInt m.monitor_y
    ++ ",\"on_all_desktops\":" ++ jsonBool m.on_all_desktops
    ++ ",\"reserved_bottom\":" ++ toString m.reserved_bottom
    ++ "\x7d"

/-- Payload serialized with its keys in sorted order; this is the
`payload_key` string the push loop compares. -/
def serPayload (p : Payload) : String :=
  "\x7b\"monitors\":" ++ jsonArr (p.monitors.map serMonitor)
    ++ ",\"service\":" ++ jsonStr p.service
    ++ ",\"timestamp\":" ++ toString p.timestamp
    ++ "\x7d"

/-- One iteration of the `ws_handler` push loop: send exactly when the
serialization differs from the last-sent one, and only then update the
marker. Returns (frame sent?, new marker). -/
def pushStep (p : Payload) (lastKey : Option String) : Bool × Option String :=
  let key := serPayload p
  if some key ≠ lastKey then (true, some key) else (false, lastKey)

/-! ## Command dispatcher: MoveWindow (`handle_command`, MoveWindow branch) -/

/-- Structured form of the command strings appended to the MoveWindow
action trace; `renderCmd` reproduces the exact f-strings. -/
inductive Cmd
  | activate (wid : String)
  | shortcut (name : String)
  | moveMonitor (wid : String) (tm : Int)
  | moveDesktop (wid : String) (td : String)
  | pinToggle (wid : String)
  | fullscreen
  deriving Repr, DecidableEq

/-- Exact command text appended to `commands` in the Python source. -/
def renderCmd : Cmd → String
  | .activate wid => "kwin activate " ++ wid
  | .shortcut name => "kwin shortcut " ++ name
  | .moveMonitor wid tm => "kwin move-monitor " ++ wid ++ " " ++ toString tm
  | .moveDesktop wid td => "kwin move-desktop " ++ wid ++ " " ++ td
  | .pinToggle wid => "kwin pin-toggle " ++ wid
  | .fullscreen => "kwin fullscreen"

/-- Composed action trace sent in the acknowledgment: `" ; ".join(commands)`. -/
def composeCommands (cmds : List Cmd) : String :=
  String.intercalate " ; " (cmds.map renderCmd)

/-- First shortcut of the candidate list that the shortcut oracle accepts. -/
def firstShortcut (shortcutOk : String → Bool) : List String → Option String
  | [] => none
  | s :: rest => if shortcutOk s then some s else firstShortcut shortcutOk rest

/-- Monitor-move step for a numeric target: try screen-move shortcuts at
`n-1` then `n` (`str(target_monitor).isdigit()` requires `0 ≤ n`), fall
back to an explicit move-monitor action. -/
def moveMonitorBlock (wid : String) (n : Int) (shortcutOk : String → Bool) : List Cmd :=
  if 0 ≤ n then
    match firstShortcut shortcutOk
        ((if 1 ≤ n then ["Window to Screen " ++ toString (n - 1)] else [])
          ++ ["Window to Screen " ++ toString n]) with
    | some s => [.shortcut s]
    | none => [.moveMonitor wid n]
  else [.moveMonitor wid n]

/-- Monitor-move prefix of the MoveWindow trace: nothing when the target
monitor is falsy (absent or 0) or the window already sits on it;
otherwise an activate followed by the monitor-move step. -/
def monitorMovePart (p : Payload) (wid : String) (targetMonitor : Option Int)
    (shortcutOk : String → Bool) : List Cmd :=
  match targetMonitor with
  | none => []
  | some n =>
    if n = 0 then []
    else if findWindowMonitor p wid ≠ some n then
      Cmd.activate wid :: moveMonitorBlock wid n shortcutOk
    else []

/-- Embedding of the MoveWindow branch of `handle_command`: `p` is the
snapshot built before the move, `p2` the snapshot rebuilt after it, and
`shortcutOk` the outcome of `invoke_kwin_shortcut` per shortcut name.
Returns the `commands` list composed into the acknowledgment. -/
def moveWindowCommands (p : Payload) (wid : String) (targetMonitor : Option Int)
    (targetDesktop : String) (shortcutOk : String → Bool) (p2 : Payload) : List Cmd :=
  let shouldPin := isMonitorAllPinned p targetMonitor
  let windowPinned := findWindowPinned p wid
  monitorMovePart p wid targetMonitor shortcutOk
    ++ [Cmd.moveDesktop wid targetDesktop]
    ++ (if shouldPin ∧ windowPinned = some false then [Cmd.pinToggle wid] else [])
    ++ [Cmd.activate wid]
    ++ (if findWindowFullscreen p2 wid then [Cmd.fullscreen] else [])

/-! ## Command dispatcher: LaunchApp (`sanitize_exec_command`,
`launch_exec_command`, LaunchApp branch of `handle_command`) -/

/-- The known desktop-entry substitution markers. -/
def execPlaceholders : List String :=
  ["%f", "%F", "%u", "%U", "%d", "%D", "%n", "%N", "%i", "%c", "%k", "%v", "%m"]

/-- Embedding of `sanitize_exec_command`. -/
def sanitizeExecCommand (value : Option String) : Option String :=
  if ¬ truthyS value then none
  else
    let parts := pySplit (value.getD "")
    let kept := parts.filter (fun part => ¬ (part ∈ execPlaceholders ∨ startsWithPct part))
    let r := pyStrip (String.intercalate " " kept)
    if r = "" then none else some r

/-- Lexer mode of the POSIX `shlex.split` embedding; the two escape
modes consume the character following a backslash. -/
inductive LexMode
  | normal
  | single
  | double
  | escNormal
  | escDouble
  deriving Repr, DecidableEq

/-- Whitespace set of `shlex`. -/
def shlexWs (c : Char) : Bool :=
  c = ' ' ∨ c = '\t' ∨ c = '\r' ∨ c = '\n'

/-- Core state machine of POSIX `shlex.split`: whitespace-separated
tokens, single and double quotes, backslash escapes; `none` models the
`ValueError` raised on an unterminated quote or trailing escape. -/
def shlexGo : LexMode → List Char → Option String → List String → Option (List String)
  | .normal, [], cur, toks => some (toks ++ cur.toList)
  | .normal, c :: rest, cur, toks =>
    if shlexWs c then
      match cur with
      | none => shlexGo .normal rest none toks
      | some t => shlexGo .normal rest none (toks ++ [t])
    else if c = '\'' then shlexGo .single rest (some (cur.getD "")) toks
    else if c = '"' then shlexGo .double rest (some (cur.getD "")) toks
    else if c = '\\' then shlexGo .escNormal rest (some (cur.getD "")) toks
    else shlexGo .normal rest (some ((cur.getD "").push c)) toks
  | .escNormal, [], _, _ => none
  | .escNormal, d :: rest, cur, toks =>
    shlexGo .normal rest (some ((cur.getD "").push d)) toks
  | .single, [], _, _ => none
  | .single, c :: rest, cur, toks =>
    if c = '\'' then shlexGo .normal rest cur toks
    else shlexGo .single rest (some ((cur.getD "").push c)) toks
  | .double, [], _, _ => none
  | .double, c :: rest, cur, toks =>
    if c = '"' then shlexGo .normal rest cur toks
    else if c = '\\' then shlexGo .escDouble rest cur toks
    else shlexGo .double rest (some ((cur.getD "").push c)) toks
  | .escDouble, [], _, _ => none
  | .escDouble, d :: rest, cur, toks =>
    if d = '"' ∨ d = '\\' then shlexGo .double rest (some ((cur.getD "").push d)) toks
    else shlexGo .double rest (some (((cur.getD "").push '\\').push d)) toks

/-- Embedding of `shlex.split`. -/
def shlexSplit (s : String) : Option (List String) :=
  shlexGo .normal s.toList none []

/-- Embedding of `launch_exec_command`: the spawned argv on success,
`none` when nothing is spawned (falsy input, lex error, empty argv). -/
def launchExecCommand (execCmd : Option String) : Option (List String) :=
  if ¬ truthyS execCmd then none
  else
    match shlexSplit (execCmd.getD "") with
    | none => none
    | some [] => none
    | some args => some args

/-- Observable effects of one `handle_command` branch. -/
inductive Effect
  | runAction (winid : Option String) (action : String)
      (targetDesktop : Option String) (targetMonitor : Option String)
  | spawn (args : List String)
  | ackSent (command : String)
  | statePush
  deriving Repr, DecidableEq

/-- Embedding of the LaunchApp branch of `handle_command`: the raw exec
specification goes to `launch_exec_command` unchanged; on success an
acknowledgment and a state push follow, and no scripted action runs. -/
def handleLaunchApp (execCmd : Option String) : List Effect :=
  if truthyS execCmd then
    match launchExecCommand execCmd with
    | some args => [.spawn args, .ackSent ("exec " ++ execCmd.getD ""), .statePush]
    | none => []
  else []

/-! ## Log relay (`collect_kwin_lines`, `get_service_candidates`) -/

/-- The fixed candidate service list. -/
def serviceCandidates : List String :=
  ["plasma-kwin_wayland.service", "plasma-kwin_x11.service",
   "kwin_wayland.service", "kwin_x11.service"]

/-- Embedding of `get_service_candidates`. -/
def getServiceCandidates (preferred : Option String) : List String :=
  if truthyS preferred ∧ preferred ≠ some "auto" then [preferred.getD ""]
  else serviceCandidates

/-- Inner retry loop of `collect_kwin_lines`: one service, attempts in
order, accepting the first non-empty line list, recording the last
error. `g j` is the outcome of the `j`-th `safe_read_kwin_log_since`
call for this service. -/
def attemptLoop (g : Nat → Except String (List String)) :
    List Nat → Option String → List String ⊕ Option String
  | [], lastErr => Sum.inr lastErr
  | j :: js, lastErr =>
    match g j with
    | .ok l => if l = [] then attemptLoop g js lastErr else Sum.inl l
    | .error e => attemptLoop g js (some e)

/-- Outer loop of `collect_kwin_lines` over the candidate services,
threading the last error; `f i j` is the outcome of attempt `j` on the
`i`-th service. -/
def serviceLoop (f : Nat → Nat → Except String (List String)) :
    Nat → List String → Option String → (String × List String) ⊕ Option String
  | _, [], lastErr => Sum.inr lastErr
  | i, svc :: rest, lastErr =>
    match attemptLoop (f i) [0, 1, 2] lastErr with
    | Sum.inl l => Sum.inl (svc, l)
    | Sum.inr le2 => serviceLoop f (i + 1) rest le2

/-- Failure modes of `collect_kwin_lines`: a re-raised journalctl error,
or the `services[0]` lookup on an empty candidate list. -/
inductive CollectErr
  | runtime (msg : String)
  | indexError
  deriving Repr, DecidableEq

/-- Embedding of `collect_kwin_lines`: first non-empty result wins; with
no lines anywhere, re-raise a recorded error if any, else return the
first candidate with an empty line list. -/
def collectKwinLines (services : List String)
    (f : Nat → Nat → Except String (List String)) : Except CollectErr (String × List String) :=
  match serviceLoop f 0 services none with
  | Sum.inl r => .ok r
  | Sum.inr (some e) => .error (.runtime e)
  | Sum.inr none =>
    match services.head? with
    | some s => .ok (s, [])
    | none => .error .indexError

/-- Sort key of a projected window view; the projection preserves the
`winKey` of its source record. -/
def viewKey (v : WindowView) : Bool × Int × String :=
  (v.pid.isNone, v.pid.getD 0, v.id.getD "")

/-- Boolean lexicographic comparison on `viewKey`. -/
def viewKeyLe (a b : WindowView) : Bool :=
  tripLe (viewKey a) (viewKey b)

/-- Does one read outcome carry at least one line. -/
def nonemptyOk : Except String (List String) → Bool
  | .ok (_ :: _) => true
  | _ => false

/-! ## Concrete demonstration data for witnesses and counterexamples -/

/-- Output at geometry (0, 0). -/
def outA : OutputRec :=
  ⟨some "DP-1", none, some ⟨some 0, some 0, some 1920, some 1080⟩⟩

/-- Output at geometry (1920, 0). -/
def outB : OutputRec :=
  ⟨some "DP-2", none, some ⟨some 1920, some 0, some 1920, some 1080⟩⟩

/-- Unpinned window on desktop "1", output `outA`. -/
def winW1 : WindowRecord :=
  { pid := some 10, caption := some "c1", windowId := some "w1",
    internalId := some "w1", idField := none, onAllDesktops := false,
    desktops := some ["1"], output := some outA, minimized := false,
    maximized := false, fullScreen := false, active := true,
    appName := some "App1", appExec := some "app1" }

/-- Pinned window, output `outA`. -/
def winW2 : WindowRecord :=
  { pid := some 5, caption := some "c2", windowId := some "w2",
    internalId := some "w2", idField := none, onAllDesktops := true,
    desktops := some ["ALL"], output := some outA, minimized := false,
    maximized := false, fullScreen := false, active := false,
    appName := some "App2", appExec := some "app2" }

/-- Pinned window with an absent handle. -/
def winNoId : WindowRecord :=
  { winW2 with windowId := none, internalId := none }

/-- Meta record with one output and one desktop but no windows hosted. -/
def metaEmptyMon : MetaRecord := ⟨[outB], [some "1"], none⟩

/-- Meta record with no outputs, desktops or active name. -/
def metaNone : MetaRecord := ⟨[], [], none⟩

/-- Unpinned window view with id `"wx"` on a demo monitor. -/
def viewWx : WindowView :=
  { id := some "wx", title := none, pid := some 4, caption := none,
    on_all_desktops := false, minimized := false, maximized := false,
    fullScreen := false, appExec := none, active := false }

/-- Pinned window view with id `"wp"`. -/
def viewWp : WindowView :=
  { viewWx with id := some "wp", on_all_desktops := true }

/-- Demo monitor 1 hosting the unpinned `viewWx`. -/
def monOne : MonitorView :=
  { monitor_id := 1, monitor_name := some "DP-1", monitor_x := some 0,
    monitor_y := some 0, monitor_width := some 1920,
    monitor_height := some 1080, reserved_bottom := 48,
    on_all_desktops := false, desktops := [⟨"1", false, [viewWx]⟩] }

/-- Demo monitor 2 hosting only the pinned `viewWp`. -/
def monTwo : MonitorView :=
  { monOne with
    monitor_id := 2
    monitor_name := some "DP-2"
    monitor_x := some 1920
    on_all_desktops := true
    desktops := [⟨"1", false, [viewWp]⟩] }

/-- Demo pre-move payload: window "wx" on monitor 1, monitor 2 all pinned. -/
def payloadDemo : Payload := ⟨"svc", 0, [monOne, monTwo]⟩

/-! # Theorems

General lemmas about the stable insertion sort, followed by one theorem
per claim (with witnesses and counterexamples where required). -/

section StableSort

variable {α : Type _} {β : Type _} (le : α → α → Bool)

theorem insertIn_perm (x : α) (l : List α) : List.Perm (insertIn le x l) (x :: l) := by
  induction l with
  | nil => exact List.Perm.refl _
  | cons y ys ih =>
    simp only [insertIn]
    split
    · exact (ih.cons y).trans (List.Perm.swap x y ys)
    · exact List.Perm.refl _

theorem mem_insertIn {x a : α} {l : List α} : a ∈ insertIn le x l ↔ a = x ∨ a ∈ l := by
  rw [(insertIn_perm le x l).mem_iff, List.mem_cons]

theorem stableSortBy_perm_aux (l : List α) :
    ∀ acc : List α, List.Perm (l.foldl (fun acc x => insertIn le x acc) acc) (acc ++ l) := by
  induction l with
  | nil => intro acc; simp
  | cons x xs ih =>
    intro acc
    have h1 : List.Perm (xs.foldl (fun acc x => insertIn le x acc) (insertIn le x acc))
        (insertIn le x acc ++ xs) := ih _
    have h2 : List.Perm (insertIn le x acc ++ xs) ((x :: acc) ++ xs) :=
      (insertIn_perm le x acc).append_right xs
    exact (h1.trans h2).trans List.perm_middle.symm

theorem stableSortBy_perm (l : List α) : List.Perm (stableSortBy le l) l :=
  stableSortBy_perm_aux le l []

theorem mem_stableSortBy {a : α} {l : List α} : a ∈ stableSortBy le l ↔ a ∈ l :=
  (stableSortBy_perm le l).mem_iff

theorem insertIn_pairwise
    (htrans : ∀ a b c, le a b = true → le b c = true → le a c = true)
    (htotal : ∀ a b, le a b = true ∨ le b a = true)
    (x : α) {l : List α} (hl : l.Pairwise (le · · = true)) :
    (insertIn le x l).Pairwise (fun a b => le a b = true) := by
  induction l with
  | nil => simp [insertIn]
  | cons y ys ih =>
    rcases List.pairwise_cons.mp hl with ⟨hy, hys⟩
    simp only [insertIn]
    split
    · rename_i hyx
      refine List.pairwise_cons.mpr ⟨?_, ih hys⟩
      intro z hz
      rcases (mem_insertIn le).mp hz with rfl | hz2
      · exact hyx
      · exact hy z hz2
    · rename_i hyx
      have hxy : le x y = true := by
        rcases htotal y x with h | h
        · exact absurd h hyx
        · exact h
      refine List.pairwise_cons.mpr ⟨?_, hl⟩
      intro z hz
      rcases List.mem_cons.mp hz with rfl | hz2
      · exact hxy
      · exact htrans x y z hxy (hy z hz2)

theorem stableSortBy_pairwise_aux
    (htrans : ∀ a b c, le a b = true → le b c = true → le a c = true)
    (htotal : ∀ a b, le a b = true ∨ le b a = true)
    (l : List α) :
    ∀ acc : List α, acc.Pairwise (le · · = true) →
      (l.foldl (fun acc x => insertIn le x acc) acc).Pairwise (fun a b => le a b = true) := by
  induction l with
  | nil => intro acc hacc; exact hacc
  | cons x xs ih =>
    intro acc hacc
    exact ih (insertIn le x acc) (insertIn_pairwise le htrans htotal x hacc)

theorem stableSortBy_pairwise
    (htrans : ∀ a b c, le a b = true → le b c = true → le a c = true)
    (htotal : ∀ a b, le a b = true ∨ le b a = true)
    (l : List α) :
    (stableSortBy le l).Pairwise (fun a b => le a b = true) :=
  stableSortBy_pairwise_aux le htrans htotal l [] (List.Pairwise.nil)

theorem insertIn_filter_key [DecidableEq β] (κ : α → β)
    (htrans : ∀ a b c, le a b = true → le b c = true → le a c = true)
    (hEq : ∀ a b, κ a = κ b → le a b = true)
    (x : α) {l : List α} (hl : l.Pairwise (le · · = true)) (k : β) :
    (insertIn le x l).filter (fun a => κ a = k)
      = if κ x = k then l.filter (fun a => κ a = k) ++ [x]
        else l.filter (fun a => κ a = k) := by
  induction l with
  | nil => by_cases h : κ x = k <;> simp [insertIn, h]
  | cons y ys ih =>
    rcases List.pairwise_cons.mp hl with ⟨hy, hys⟩
    simp only [insertIn]
    split
    · rename_i hyx
      by_cases hky : κ y = k <;> by_cases hkx : κ x = k <;>
        simp [List.filter_cons, hky, hkx, ih hys]
    · rename_i hyx
      have hnone : ∀ z ∈ y :: ys, ¬ (κ z = k ∧ κ x = k) := by
        intro z hz ⟨hzk, hxk⟩
        have hzx : κ z = κ x := hzk.trans hxk.symm
        rcases List.mem_cons.mp hz with rfl | hz2
        · exact hyx (hEq z x hzx)
        · exact hyx (htrans y z x (hy z hz2) (hEq z x hzx))
      by_cases hkx : κ x = k
      · have hfil : (y :: ys).filter (fun a => κ a = k) = [] := by
          rw [List.filter_eq_nil_iff]
          intro z hz
          simp only [decide_eq_true_eq]
          intro hzk
          exact hnone z hz ⟨hzk, hkx⟩
        simp [List.filter_cons, hkx, hfil]
      · simp [List.filter_cons, hkx]

theorem stableSortBy_filter_key_aux [DecidableEq β] (κ : α → β)
    (htrans : ∀ a b c, le a b = true → le b c = true → le a c = true)
    (htotal : ∀ a b, le a b = true ∨ le b a = true)
    (hEq : ∀ a b, κ a = κ b → le a b = true)
    (l : List α) (k : β) :
    ∀ acc : List α, acc.Pairwise (le · · = true) →
      (l.foldl (fun acc x => insertIn le x acc) acc).filter (fun a => κ a = k)
        = acc.filter (fun a => κ a = k) ++ l.filter (fun a => κ a = k) := by
  induction l with
  | nil => intro acc hacc; simp
  | cons x xs ih =>
    intro acc hacc
    have hstep := ih (insertIn le x acc) (insertIn_pairwise le htrans htotal x hacc)
    calc ((x :: xs).foldl (fun acc x => insertIn le x acc) acc).filter (fun a => κ a = k)
        = (insertIn le x acc).filter (fun a => κ a = k)
            ++ xs.filter (fun a => κ a = k) := hstep
      _ = acc.filter (fun a => κ a = k) ++ (x :: xs).filter (fun a => κ a = k) := by
          rw [insertIn_filter_key le κ htrans hEq x hacc k]
          by_cases hkx : κ x = k <;> simp [List.filter_cons, hkx]

theorem stableSortBy_filter_key [DecidableEq β] (κ : α → β)
    (htrans : ∀ a b c, le a b = true → le b c = true → le a c = true)
    (htotal : ∀ a b, le a b = true ∨ le b a = true)
    (hEq : ∀ a b, κ a = κ b → le a b = true)
    (l : List α) (k : β) :
    (stableSortBy le l).filter (fun a => κ a = k) = l.filter (fun a => κ a = k) := by
  have h := stableSortBy_filter_key_aux le κ htrans htotal hEq l k [] (List.Pairwise.nil)
  simpa [stableSortBy] using h

end StableSort

/-! ## Comparator properties -/

theorem pairLe_trans (a b c : Int × Int) :
    pairLe a b = true → pairLe b c = true → pairLe a c = true := by
  simp only [pairLe]
  split_ifs <;> simp_all <;> omega

theorem pairLe_total (a b : Int × Int) : pairLe a b = true ∨ pairLe b a = true := by
  simp only [pairLe]
  split_ifs <;> simp_all <;> omega

theorem pairLe_of_eq (a b : Int × Int) (h : a = b) : pairLe a b = true := by
  subst h
  simp [pairLe]

theorem tripLe_trans (a b c : Bool × Int × String) :
    tripLe a b = true → tripLe b c = true → tripLe a c = true := by
  obtain ⟨a1, a2, a3⟩ := a
  obtain ⟨b1, b2, b3⟩ := b
  obtain ⟨c1, c2, c3⟩ := c
  simp only [tripLe]
  cases a1 <;> cases b1 <;> cases c1 <;>
    split_ifs <;> simp_all <;> first
      | omega
      | (intro h1 h2
         exact String.le_iff_toList_le.mp
          (le_trans (String.le_iff_toList_le.mpr h1) (String.le_iff_toList_le.mpr h2)))

theorem tripLe_total (a b : Bool × Int × String) : tripLe a b = true ∨ tripLe b a = true := by
  obtain ⟨a1, a2, a3⟩ := a
  obtain ⟨b1, b2, b3⟩ := b
  simp only [tripLe]
  cases a1 <;> cases b1 <;>
    split_ifs <;> simp_all <;> first
      | omega
      | exact (le_total a3 b3).imp String.le_iff_toList_le.mp String.le_iff_toList_le.mp

theorem tripLe_of_eq (a b : Bool × Int × String) (h : a = b) : tripLe a b = true := by
  subst h
  simp [tripLe]

/-! ## General helper lemmas about the embedded functions -/

theorem findWindowScan_eq_find (target : String) (ws : List WindowRecord) :
    findWindowScan target ws = ws.find? (fun w => matchesWinid w target) := by
  induction ws with
  | nil => rfl
  | cons w rest ih =>
    by_cases h1 : normalizeWinid w.internalId = target <;>
      by_cases h2 : normalizeWinid w.windowId = target <;>
        by_cases h3 : normalizeWinid w.idField = target <;>
          simp [findWindowScan, List.find?, matchesWinid, h1, h2, h3, ih]

theorem dedupByWinId_valid :
    ∀ (l : List WindowRecord) (seen : List String) (w : WindowRecord),
      w ∈ dedupByWinId seen l → validWinId w = true := by
  intro l
  induction l with
  | nil => intro seen w h; simp [dedupByWinId] at h
  | cons u rest ih =>
    intro seen w h
    rcases hu : u.windowId with _ | s
    · simp only [dedupByWinId, hu] at h
      exact ih seen w h
    · simp only [dedupByWinId, hu] at h
      by_cases hs : s = ""
      · rw [if_pos hs] at h
        exact ih seen w h
      · rw [if_neg hs] at h
        by_cases hseen : s ∈ seen
        · rw [if_pos hseen] at h
          exact ih seen w h
        · rw [if_neg hseen] at h
          rcases List.mem_cons.mp h with rfl | h2
          · simp [validWinId, hu, hs]
          · exact ih (s :: seen) w h2

/-! ## C1: the all-pinned flag of a built monitor -/

/-- C1, counterexample: a built snapshot whose single monitor hosts no
window nevertheless carries all-pinned = true (Python `all([])`), so the
flag is not "true only if the monitor hosts at least one window", and a
monitor with no windows does not have all-pinned = false. -/
theorem c1_empty_monitor_counterexample :
    (buildMonitors metaEmptyMon []).map (fun m => (m.on_all_desktops, monitorWindows m))
      = [(true, [])] := by decide

/-- C1, amended: in a built snapshot a monitor's all-pinned flag equals
"every hosted window record is pinned", which holds vacuously for a
monitor hosting no windows; the dispatcher predicate
`is_monitor_all_pinned` on the built payload is true exactly when the
addressed monitor exists, hosts at least one window view, and every
hosted view is pinned. -/
theorem c1_all_pinned_flag :
    (∀ (idx : Int) (out : OutputRec) (ws : List WindowRecord) (names : List String)
        (active : Option String),
      (mkMonitor idx out ws names active).on_all_desktops = true
        ↔ ∀ w ∈ windowsOnOutput out ws, w.onAllDesktops = true)
    ∧ (∀ (p : Payload) (mid : Int),
      isMonitorAllPinned p (some mid) = true
        ↔ ∃ m, p.monitors.find? (fun m2 => m2.monitor_id = mid) = some m
            ∧ monitorWindows m ≠ [] ∧ ∀ v ∈ monitorWindows m, v.on_all_desktops = true) := by
  constructor
  · intro idx out ws names active
    simp [mkMonitor, List.all_eq_true]
  · intro p mid
    rw [isMonitorAllPinned]
    cases hfind : p.monitors.find? (fun m2 => m2.monitor_id = mid) with
    | none => simp
    | some m =>
      by_cases hw : monitorWindows m = []
      · simp [hw]
      · simp [hw, List.all_eq_true]

/-- C1, witness for the amended theorem: on the demo payload, monitor 2
hosts one pinned view, and the dispatcher predicate accepts it. -/
theorem c1_all_pinned_flag_witness :
    ∃ m, payloadDemo.monitors.find? (fun m2 => m2.monitor_id = 2) = some m
        ∧ monitorWindows m ≠ [] ∧ ∀ v ∈ monitorWindows m, v.on_all_desktops = true :=
  (c1_all_pinned_flag.2 payloadDemo 2).mp (by decide)

/-! ## C2: the push loop resends although the underlying state is unchanged -/

/-- C2: with identical service, meta record and window list, two
consecutive polls at distinct rounded acquisition times both send a
frame: the serialized payload embeds the fresh timestamp, so the
change-comparison never suppresses the second frame. This contradicts
Scenario D (zero frames on the second poll over unchanged state). -/
theorem c2_push_resends_on_timestamp :
    (pushStep (buildPayload "svc" 100 metaNone []) none).1 = true
      ∧ (pushStep (buildPayload "svc" 200 metaNone [])
          (pushStep (buildPayload "svc" 100 metaNone []) none).2).1 = true := by decide

/-! ## C3: purity of the snapshot build -/

/-- C3, counterexample: two full snapshot builds from identical
(service, meta, windows) inputs at different wall-clock instants are not
byte-identical after serialization. -/
theorem c3_rebuild_not_byte_identical :
    serPayload (buildPayload "svc" 100 metaNone [])
      ≠ serPayload (buildPayload "svc" 200 metaNone []) := by decide

/-- C3, amended: the snapshot build is a pure function of (service,
meta, windows) and the acquisition instant; two builds from identical
inputs differ in the timestamp field alone. -/
theorem c3_pure_given_time :
    ∀ (s : String) (t t' : Nat) (meta : MetaRecord) (ws : List WindowRecord),
      buildPayload s t' meta ws = { buildPayload s t meta ws with timestamp := t' } := by
  intro s t t' meta ws
  rfl

/-! ## C8: canonical window identifiers -/

/-- C8: `normalize_winid` collapses whitespace, casing and braces;
absent or empty input canonicalizes to the empty string, and a lookup
with an empty canonical target resolves to no record; otherwise the
lookup returns the first record one of whose three handle fields
canonicalizes to the target. -/
theorem c8_canonicalize :
    normalizeWinid (some "\x7bABC-123\x7d") = "abc-123"
    ∧ normalizeWinid (some "abc-123") = "abc-123"
    ∧ normalizeWinid none = ""
    ∧ normalizeWinid (some "") = ""
    ∧ (∀ (ws : List WindowRecord) (winid : Option String),
        normalizeWinid winid = "" → findWindowForId ws winid = none)
    ∧ (∀ (ws : List WindowRecord) (winid : Option String),
        normalizeWinid winid ≠ "" →
          findWindowForId ws winid
            = ws.find? (fun w => matchesWinid w (normalizeWinid winid))) := by
  refine ⟨by decide, by decide, rfl, by decide, ?_, ?_⟩
  · intro ws winid h
    simp [findWindowForId, h]
  · intro ws winid h
    simp [findWindowForId, h, findWindowScan_eq_find]

/-- C8, witness: a braces-and-case variant of the handle of `winW2`
resolves to the first matching record. -/
theorem c8_canonicalize_witness :
    findWindowForId [winW1, winW2] (some "\x7bW2\x7d")
      = List.find? (fun w => matchesWinid w (normalizeWinid (some "\x7bW2\x7d"))) [winW1, winW2] :=
  c8_canonicalize.2.2.2.2.2 [winW1, winW2] (some "\x7bW2\x7d") (by decide)

/-! ## C9: LaunchApp spawns the raw exec specification -/

/-- C9, counterexample: a LaunchApp command whose exec specification
carries the `%U` placeholder spawns an argv that still contains `%U`;
`sanitize_exec_command` would have stripped it, so the dispatcher does
not sanitize before spawning. -/
theorem c9_launch_no_sanitize_counterexample :
    handleLaunchApp (some "xterm %U")
      = [Effect.spawn ["xterm", "%U"], Effect.ackSent "exec xterm %U", Effect.statePush]
    ∧ sanitizeExecCommand (some "xterm %U") = some "xterm" :=
  ⟨by decide, by decide⟩

/-- C9, amended: the LaunchApp branch performs no scripted action; the
spawned argv is exactly the shell-lexed raw exec specification (no
placeholder stripping); on a successful spawn the branch emits the
spawn, an acknowledgment of the raw command, and a state push.
Placeholder sanitization happens only where desktop-entry Exec values
are read into snapshots. -/
theorem c9_launch_spawns_raw :
    ∀ execCmd : Option String,
      (∀ w a td tm, Effect.runAction w a td tm ∉ handleLaunchApp execCmd)
      ∧ (∀ args, Effect.spawn args ∈ handleLaunchApp execCmd →
          launchExecCommand execCmd = some args)
      ∧ (∀ args, launchExecCommand execCmd = some args →
          handleLaunchApp execCmd
            = [Effect.spawn args, Effect.ackSent ("exec " ++ execCmd.getD ""),
                Effect.statePush]) := by
  intro execCmd
  by_cases ht : truthyS execCmd = true
  · cases hl : launchExecCommand execCmd with
    | none => simp [handleLaunchApp, ht, hl]
    | some args => simp [handleLaunchApp, ht, hl]
  · have hl : launchExecCommand execCmd = none := by
      simp [launchExecCommand, ht]
    simp [handleLaunchApp, ht, hl]

/-- C9, witness: a plain two-token command spawns its two arguments. -/
theorem c9_launch_spawns_raw_witness :
    handleLaunchApp (some "ls -la")
      = [Effect.spawn ["ls", "-la"], Effect.ackSent "exec ls -la", Effect.statePush] :=
  (c9_launch_spawns_raw (some "ls -la")).2.2 ["ls", "-la"] (by decide)

/-! ## C10: records with a falsy handle never reach a desktop list -/

/-- C10: a window record whose `windowId` is absent or empty is excluded
from every desktop's window list of the built snapshot, even when the
selection rule matches it. -/
theorem c10_empty_handle_excluded :
    ∀ (names : List String) (ws : List WindowRecord) (active : Option String)
      (d : DesktopView) (w : WindowRecord),
      d ∈ buildDesktopWindows names ws active →
      (w.windowId = none ∨ w.windowId = some "") →
      projWindow w ∉ d.windows := by
  intro names ws active d w hd hid hmem
  rcases List.mem_map.mp hd with ⟨dname, hdn, rfl⟩
  simp only [mkDesktop] at hmem
  rcases List.mem_map.mp hmem with ⟨u, hu, hproj⟩
  have hu2 : u ∈ dedupByWinId [] (ws.filter (selectedForDesktop dname)) :=
    (mem_stableSortBy winKeyLe).mp hu
  have hv := dedupByWinId_valid _ _ _ hu2
  have hid2 : u.windowId = w.windowId := congrArg WindowView.id hproj
  rcases hid with hw | hw <;> rw [hw] at hid2 <;> simp [validWinId, hid2] at hv

/-- C10, witness: the pinned but handle-less record `winNoId` is
selected for desktop "1" yet its projection is absent from the built
desktop. -/
theorem c10_empty_handle_excluded_witness :
    projWindow winNoId ∉ (mkDesktop [winNoId] none "1").windows :=
  c10_empty_handle_excluded ["1"] [winNoId] none (mkDesktop [winNoId] none "1") winNoId
    (by simp [buildDesktopWindows]) (Or.inl rfl)

/-! ## C7: monitor ids and output ordering -/

theorem geoKeyLe_trans (a b c : OutputRec) :
    geoKeyLe a b = true → geoKeyLe b c = true → geoKeyLe a c = true :=
  pairLe_trans _ _ _

theorem geoKeyLe_total (a b : OutputRec) : geoKeyLe a b = true ∨ geoKeyLe b a = true :=
  pairLe_total _ _

theorem buildMonitorsFrom_map_id (ws : List WindowRecord) (names : List String)
    (active : Option String) :
    ∀ (outs : List OutputRec) (idx : Int),
      (buildMonitorsFrom idx ws names active outs).map (·.monitor_id)
        = (List.range outs.length).map (fun k : Nat => idx + (k : Int)) := by
  intro outs
  induction outs with
  | nil => intro idx; rfl
  | cons out rest ih =>
    intro idx
    simp only [buildMonitorsFrom, List.map_cons, List.length_cons,
      List.range_succ_eq_map, List.map_map]
    refine congrArg₂ _ ?_ ?_
    · simp [mkMonitor]
    · rw [ih (idx + 1)]
      refine List.map_congr_left ?_
      intro k hk
      simp only [Function.comp]
      push_cast
      ring

theorem buildMonitorsFrom_map_name (ws : List WindowRecord) (names : List String)
    (active : Option String) :
    ∀ (outs : List OutputRec) (idx : Int),
      (buildMonitorsFrom idx ws names active outs).map (·.monitor_name)
        = outs.map formatMonitorName := by
  intro outs
  induction outs with
  | nil => intro idx; rfl
  | cons out rest ih =>
    intro idx
    simp only [buildMonitorsFrom, List.map_cons, ih (idx + 1)]
    rfl

/-- C7: in every built snapshot the monitor ids are the dense sequence
1..N over the N resolved outputs, assigned along the stable ascending
(y, x)-sort of the outputs (missing coordinates sorting as 0): the
monitor list follows the sorted output order, the sort is ascending in
the geometry key, and it is stable (outputs of equal key keep their
input order). -/
theorem c7_monitor_ids_sorted :
    ∀ (meta : MetaRecord) (ws : List WindowRecord),
      ((buildMonitors meta ws).map (·.monitor_id)
        = (List.range' 1 (collectOutputs meta ws).length).map (fun n : Nat => (n : Int)))
      ∧ ((buildMonitors meta ws).map (·.monitor_name)
        = (sortOutputsByGeometry (collectOutputs meta ws)).map formatMonitorName)
      ∧ List.Pairwise (fun a b => geoKeyLe a b = true)
          (sortOutputsByGeometry (collectOutputs meta ws))
      ∧ ∀ k : Int × Int,
          (sortOutputsByGeometry (collectOutputs meta ws)).filter (fun o => geoKey o = k)
            = (collectOutputs meta ws).filter (fun o => geoKey o = k) := by
  intro meta ws
  refine ⟨?_, ?_, ?_, ?_⟩
  · rw [buildMonitors, buildMonitorsFrom_map_id]
    have hlen : (sortOutputsByGeometry (collectOutputs meta ws)).length
        = (collectOutputs meta ws).length :=
      (stableSortBy_perm geoKeyLe (collectOutputs meta ws)).length_eq
    rw [hlen, List.range'_eq_map_range, List.map_map]
    refine List.map_congr_left ?_
    intro k hk
    simp only [Function.comp]
    push_cast
    ring
  · rw [buildMonitors, buildMonitorsFrom_map_name]
  · exact stableSortBy_pairwise geoKeyLe geoKeyLe_trans geoKeyLe_total _
  · intro k
    exact stableSortBy_filter_key geoKeyLe geoKey geoKeyLe_trans geoKeyLe_total
      (fun a b h => pairLe_of_eq _ _ h) _ k

/-! ## C6: content and order of one desktop's window list -/

theorem winKeyLe_trans (a b c : WindowRecord) :
    winKeyLe a b = true → winKeyLe b c = true → winKeyLe a c = true :=
  tripLe_trans _ _ _

theorem winKeyLe_total (a b : WindowRecord) : winKeyLe a b = true ∨ winKeyLe b a = true :=
  tripLe_total _ _

theorem dedupByWinId_mem_iff :
    ∀ (l : List WindowRecord) (seen : List String) (w : WindowRecord),
      w ∈ dedupByWinId seen l
        ↔ ∃ s, w.windowId = some s ∧ s ≠ "" ∧ s ∉ seen
            ∧ l.find? (fun u => u.windowId = some s) = some w := by
  intro l
  induction l with
  | nil =>
    intro seen w
    constructor
    · intro h
      simp [dedupByWinId] at h
    · rintro ⟨s, _, _, _, hf⟩
      simp at hf
  | cons u rest ih =>
    intro seen w
    rcases hu : u.windowId with _ | t
    · simp only [dedupByWinId, hu]
      rw [ih]
      refine exists_congr fun s => ?_
      rw [List.find?_cons_of_neg _ (by simp [hu])]
    · by_cases ht : t = ""
      · subst ht
        have hred : dedupByWinId seen (u :: rest) = dedupByWinId seen rest := by
          simp [dedupByWinId, hu]
        rw [hred, ih]
        refine exists_congr fun s => ?_
        by_cases hs : s = ""
        · constructor
          · rintro ⟨hw, hne, _⟩
            exact absurd hs hne
          · rintro ⟨hw, hne, _⟩
            exact absurd hs hne
        · rw [List.find?_cons_of_neg _
            (by rw [hu]; intro h4; exact hs (Option.some.inj (of_decide_eq_true h4)).symm)]
      · by_cases hseen : t ∈ seen
        · have hred : dedupByWinId seen (u :: rest) = dedupByWinId seen rest := by
            simp [dedupByWinId, hu, ht, hseen]
          rw [hred, ih]
          refine exists_congr fun s => ?_
          by_cases hst : s = t
          · constructor
            · rintro ⟨hw, hs2, hsn, hf⟩
              exact absurd (by rw [hst]; exact hseen) hsn
            · rintro ⟨hw, hs2, hsn, hf⟩
              exact absurd (by rw [hst]; exact hseen) hsn
          · rw [List.find?_cons_of_neg _
              (by rw [hu]; intro h4; exact hst (Option.some.inj (of_decide_eq_true h4)).symm)]
        · have hred : dedupByWinId seen (u :: rest)
              = u :: dedupByWinId (t :: seen) rest := by
            simp [dedupByWinId, hu, ht, hseen]
          rw [hred]
          constructor
          · intro h
            rcases List.mem_cons.mp h with rfl | h2
            · refine ⟨t, hu, ht, hseen, ?_⟩
              rw [List.find?_cons_of_pos _ (by simp [hu])]
            · obtain ⟨s, hw, hs, hsn, hf⟩ := (ih (t :: seen) w).mp h2
              have hst : s ≠ t := fun h3 => hsn (by rw [h3]; exact List.mem_cons_self t seen)
              have hsn2 : s ∉ seen := fun h3 => hsn (List.mem_cons_of_mem t h3)
              refine ⟨s, hw, hs, hsn2, ?_⟩
              rw [List.find?_cons_of_neg _
                (by rw [hu]; intro h4
                    exact hst (Option.some.inj (of_decide_eq_true h4)).symm)]
              exact hf
          · rintro ⟨s, hw, hs, hsn, hf⟩
            by_cases hst : s = t
            · subst hst
              rw [List.find?_cons_of_pos _ (by simp [hu])] at hf
              exact List.mem_cons.mpr (Or.inl (Option.some.inj hf).symm)
            · rw [List.find?_cons_of_neg _
                (by rw [hu]; intro h4
                    exact hst (Option.some.inj (of_decide_eq_true h4)).symm)] at hf
              refine List.mem_cons.mpr (Or.inr ((ih (t :: seen) w).mpr ⟨s, hw, hs, ?_, hf⟩))
              intro hmem
              rcases List.mem_cons.mp hmem with h5 | h5
              · exact hst h5
              · exact hsn h5

theorem dedupByWinId_ids_nodup :
    ∀ (l : List WindowRecord) (seen : List String),
      ((dedupByWinId seen l).map (fun w => w.windowId)).Nodup
        ∧ ∀ w ∈ dedupByWinId seen l, ∀ s, w.windowId = some s → s ∉ seen := by
  intro l
  induction l with
  | nil => intro seen; simp [dedupByWinId]
  | cons u rest ih =>
    intro seen
    rcases hu : u.windowId with _ | t
    · simpa only [dedupByWinId, hu] using ih seen
    · by_cases ht : t = ""
      · subst ht
        simpa only [dedupByWinId, hu, if_pos rfl] using ih seen
      · by_cases hseen : t ∈ seen
        · simpa only [dedupByWinId, hu, if_neg ht, if_pos hseen] using ih seen
        · simp only [dedupByWinId, hu, if_neg ht, if_neg hseen]
          obtain ⟨ihn, ihs⟩ := ih (t :: seen)
          refine ⟨?_, ?_⟩
          · rw [List.map_cons, List.nodup_cons]
            refine ⟨?_, ihn⟩
            intro hmem
            rcases List.mem_map.mp hmem with ⟨w2, hw2, hid2⟩
            have := ihs w2 hw2 t (by rw [hid2, hu])
            exact this (List.mem_cons_self t seen)
          · intro w hw s hs
            rcases List.mem_cons.mp hw with rfl | hw2
            · rw [hu] at hs
              have hts : t = s := Option.some.inj hs
              intro hmem
              rw [← hts] at hmem
              exact hseen hmem
            · have := ihs w hw2 s hs
              intro hmem
              exact this (List.mem_cons_of_mem _ hmem)

/-- C6, counterexample: the pinned record `winNoId` satisfies the
selection rule for desktop "1", yet the built desktop's window list is
empty, because records with a falsy handle are dropped by the dedup
step; so the list does not contain exactly the selected windows
deduplicated by handle. -/
theorem c6_missing_handle_counterexample :
    (buildDesktopWindows ["1"] [winNoId] none).map (·.windows) = [[]]
    ∧ selectedForDesktop "1" winNoId = true :=
  ⟨by decide, by decide⟩

/-- C6, amended: each built desktop carries its name; its window list
holds exactly the projections of the selected windows (pinned or listing
the desktop name) that carry a non-empty handle, keeping for every
handle the first selected record; the list is sorted ascending by
(has-no-pid last, pid, handle) and its handles are pairwise distinct. -/
theorem c6_desktop_window_list :
    ∀ (names : List String) (ws : List WindowRecord) (active : Option String),
      ((buildDesktopWindows names ws active).map (·.desktop_name) = names)
      ∧ ∀ d ∈ buildDesktopWindows names ws active,
          (∀ v, v ∈ d.windows
            ↔ ∃ w, validWinId w = true
                ∧ (ws.filter (selectedForDesktop d.desktop_name)).find?
                    (fun u => u.windowId = w.windowId) = some w
                ∧ v = projWindow w)
          ∧ List.Pairwise (fun a b => viewKeyLe a b = true) d.windows
          ∧ (d.windows.map (·.id)).Nodup := by
  intro names ws active
  constructor
  · rw [buildDesktopWindows, List.map_map]
    exact (List.map_congr_left fun dn _ => rfl).trans (List.map_id _)
  · intro d hd
    rcases List.mem_map.mp hd with ⟨dname, hdn, rfl⟩
    have hname : (mkDesktop ws active dname).desktop_name = dname := rfl
    refine ⟨?_, ?_, ?_⟩
    · intro v
      simp only [mkDesktop, hname, List.mem_map, mem_stableSortBy]
      constructor
      · rintro ⟨w, hw, rfl⟩
        rcases (dedupByWinId_mem_iff _ _ _).mp hw with ⟨s, hws, hs, _, hf⟩
        refine ⟨w, ?_, ?_, rfl⟩
        · simp [validWinId, hws, hs]
        · rwa [hws]
      · rintro ⟨w, hv, hf, rfl⟩
        refine ⟨w, ?_, rfl⟩
        rcases hws : w.windowId with _ | s
        · simp [validWinId, hws] at hv
        · have hs : s ≠ "" := by
            intro h
            rw [h] at hws
            simp [validWinId, hws] at hv
          rw [hws] at hf
          exact (dedupByWinId_mem_iff _ _ _).mpr ⟨s, hws, hs, List.not_mem_nil s, hf⟩
    · simp only [mkDesktop]
      refine List.Pairwise.map projWindow (fun a b h => h) ?_
      exact stableSortBy_pairwise winKeyLe winKeyLe_trans winKeyLe_total _
    · simp only [mkDesktop, List.map_map]
      have hcomp : ((fun v : WindowView => v.id) ∘ projWindow)
          = fun w : WindowRecord => w.windowId := rfl
      rw [hcomp]
      have hperm := (stableSortBy_perm winKeyLe
        (dedupByWinId [] (ws.filter (selectedForDesktop dname)))).map
          (fun w : WindowRecord => w.windowId)
      rw [hperm.nodup_iff]
      exact (dedupByWinId_ids_nodup _ _).1

/-- C6, witness for the amended theorem: the desktop built for name "1"
from the two demo records is sorted by the window ordering key. -/
theorem c6_desktop_window_list_witness :
    List.Pairwise (fun a b => viewKeyLe a b = true)
      (mkDesktop [winW1, winW2] none "1").windows :=
  (((c6_desktop_window_list ["1"] [winW1, winW2] none).2
    (mkDesktop [winW1, winW2] none "1") (by simp [buildDesktopWindows])).2).1

/-! ## C4: the MoveWindow action trace -/

theorem firstShortcut_match_mem (wid : String) (n : Int) (ok : String → Bool)
    (tried : List String) (c : Cmd)
    (h : c ∈ (match firstShortcut ok tried with
      | some s => [Cmd.shortcut s]
      | none => [Cmd.moveMonitor wid n])) :
    (∃ s, c = Cmd.shortcut s) ∨ c = Cmd.moveMonitor wid n := by
  rcases hfs : firstShortcut ok tried with _ | s <;> rw [hfs] at h <;> simp at h
  · exact Or.inr h
  · exact Or.inl ⟨s, h⟩

theorem moveMonitorBlock_mem (wid : String) (n : Int) (ok : String → Bool) (c : Cmd)
    (h : c ∈ moveMonitorBlock wid n ok) :
    (∃ s, c = Cmd.shortcut s) ∨ c = Cmd.moveMonitor wid n := by
  rw [moveMonitorBlock] at h
  by_cases h0 : (0:Int) ≤ n
  · rw [if_pos h0] at h
    exact firstShortcut_match_mem wid n ok _ c h
  · rw [if_neg h0] at h
    simp at h
    exact Or.inr h

theorem pinToggle_notin_monitorMovePart (p : Payload) (wid wid2 : String)
    (tm : Option Int) (ok : String → Bool) :
    Cmd.pinToggle wid2 ∉ monitorMovePart p wid tm ok := by
  intro h
  rcases tm with _ | n
  · simp [monitorMovePart] at h
  · rw [monitorMovePart] at h
    split_ifs at h
    · simp at h
    · rcases List.mem_cons.mp h with h2 | h2
      · simp at h2
      · rcases moveMonitorBlock_mem wid n ok _ h2 with ⟨s, hs⟩ | hs <;> simp at hs
    · simp at h

/-- C4: in the MoveWindow branch, the pin-toggle step appears in the
trace exactly when the target monitor was uniformly pinned in the
pre-move snapshot and the window was reported unpinned there; and in the
scenario of a window on monitor 1 moved to monitor 2 (not fullscreen
afterwards) with those two conditions holding, the acknowledged trace
is, in order: activate, one monitor-move step (a screen-move shortcut at
index 1 or 2, or the explicit move-monitor fallback), move-desktop,
pin-toggle, activate. -/
theorem c4_move_window_trace :
    ∀ (p p2 : Payload) (wid td : String) (ok : String → Bool),
      (∀ tm : Option Int,
        (Cmd.pinToggle wid ∈ moveWindowCommands p wid tm td ok p2
          ↔ isMonitorAllPinned p tm = true ∧ findWindowPinned p wid = some false))
      ∧ (findWindowMonitor p wid = some 1 →
          isMonitorAllPinned p (some 2) = true →
          findWindowPinned p wid = some false →
          findWindowFullscreen p2 wid = false →
          moveWindowCommands p wid (some 2) td ok p2
            = [Cmd.activate wid,
                (if ok "Window to Screen 1" = true then Cmd.shortcut "Window to Screen 1"
                 else if ok "Window to Screen 2" = true then Cmd.shortcut "Window to Screen 2"
                 else Cmd.moveMonitor wid 2),
                Cmd.moveDesktop wid td, Cmd.pinToggle wid, Cmd.activate wid]) := by
  intro p p2 wid td ok
  constructor
  · intro tm
    by_cases hc : isMonitorAllPinned p tm = true ∧ findWindowPinned p wid = some false
    · simp only [moveWindowCommands, if_pos hc]
      simp [hc]
    · have hnm := pinToggle_notin_monitorMovePart p wid wid tm ok
      have hfsno : Cmd.pinToggle wid
          ∉ (if findWindowFullscreen p2 wid = true then [Cmd.fullscreen] else []) := by
        split_ifs <;> simp
      simp only [moveWindowCommands, if_neg hc]
      simp [hnm, hc, hfsno]
  · intro h1 h2 h3 h4
    have hs1 : ("Window to Screen " ++ toString ((2:Int) - 1)) = "Window to Screen 1" := by
      decide
    have hs2 : ("Window to Screen " ++ toString (2:Int)) = "Window to Screen 2" := by decide
    have hmp : monitorMovePart p wid (some 2) ok
        = Cmd.activate wid :: moveMonitorBlock wid 2 ok := by
      rw [monitorMovePart]
      rw [if_neg (by decide : ¬ ((2:Int) = 0))]
      rw [if_pos (by rw [h1]; decide)]
    have hblock : moveMonitorBlock wid 2 ok
        = [(if ok "Window to Screen 1" = true then Cmd.shortcut "Window to Screen 1"
            else if ok "Window to Screen 2" = true then Cmd.shortcut "Window to Screen 2"
            else Cmd.moveMonitor wid 2)] := by
      rw [moveMonitorBlock]
      rw [if_pos (by decide : (0:Int) ≤ 2), if_pos (by decide : (1:Int) ≤ 2)]
      rw [hs1, hs2]
      by_cases hok1 : ok "Window to Screen 1" = true <;>
        by_cases hok2 : ok "Window to Screen 2" = true <;>
          simp [firstShortcut, hok1, hok2]
    simp only [moveWindowCommands, hmp, hblock, if_pos (And.intro h2 h3), h4]
    simp

/-- C4, witness: on the demo payload (window "wx" on monitor 1, monitor
2 uniformly pinned) with every shortcut failing, the trace is activate,
move-monitor fallback, move-desktop, pin-toggle, activate. -/
theorem c4_move_window_trace_witness :
    moveWindowCommands payloadDemo "wx" (some 2) "2" (fun _ => false) payloadDemo
      = [Cmd.activate "wx", Cmd.moveMonitor "wx" 2, Cmd.moveDesktop "wx" "2",
          Cmd.pinToggle "wx", Cmd.activate "wx"] := by
  have h := (c4_move_window_trace payloadDemo payloadDemo "wx" "2" (fun _ => false)).2
    (by decide) (by decide) (by decide) (by decide)
  simpa using h

/-! ## C5: the log-collection retry loop -/

theorem nonemptyOk_false_elim (r : Except String (List String))
    (h : nonemptyOk r = false) : (∃ e, r = .error e) ∨ r = .ok [] := by
  cases r with
  | error e => exact Or.inl ⟨e, rfl⟩
  | ok l =>
    cases l with
    | nil => exact Or.inr rfl
    | cons a as => simp [nonemptyOk] at h

theorem attemptLoop_all_empty (g : Nat → Except String (List String)) :
    ∀ (js : List Nat) (le : Option String),
      (∀ j ∈ js, g j = .ok []) → attemptLoop g js le = Sum.inr le := by
  intro js
  induction js with
  | nil => intro le h; rfl
  | cons j js ih =>
    intro le h
    have hj := h j (List.mem_cons_self j js)
    simp [attemptLoop, hj]
    exact ih le fun j2 hj2 => h j2 (List.mem_cons_of_mem _ hj2)

theorem serviceLoop_all_empty (f : Nat → Nat → Except String (List String)) :
    ∀ (svcs : List String) (i0 : Nat) (le : Option String),
      (∀ i j, f i j = .ok []) → serviceLoop f i0 svcs le = Sum.inr le := by
  intro svcs
  induction svcs with
  | nil => intro i0 le h; rfl
  | cons s rest ih =>
    intro i0 le h
    have ha : attemptLoop (f i0) [0, 1, 2] le = Sum.inr le :=
      attemptLoop_all_empty (f i0) [0, 1, 2] le (fun j _ => h i0 j)
    simp [serviceLoop, ha]
    exact ih (i0 + 1) le h

theorem attemptLoop_first (g : Nat → Except String (List String)) (le : Option String)
    (j : Nat) (L : List String) (hj : j < 3) (hok : g j = .ok L) (hne : L ≠ [])
    (hbefore : ∀ j2, j2 < j → nonemptyOk (g j2) = false) :
    attemptLoop g [0, 1, 2] le = Sum.inl L := by
  interval_cases j
  · simp [attemptLoop, hok, hne]
  · rcases nonemptyOk_false_elim _ (hbefore 0 (by omega)) with ⟨e0, h0⟩ | h0 <;>
      simp [attemptLoop, h0, hok, hne]
  · rcases nonemptyOk_false_elim _ (hbefore 0 (by omega)) with ⟨e0, h0⟩ | h0 <;>
      rcases nonemptyOk_false_elim _ (hbefore 1 (by omega)) with ⟨e1, h1⟩ | h1 <;>
        simp [attemptLoop, h0, h1, hok, hne]

theorem attemptLoop_none (g : Nat → Except String (List String)) (le : Option String)
    (hall : ∀ j, j < 3 → nonemptyOk (g j) = false) :
    ∃ le2, attemptLoop g [0, 1, 2] le = Sum.inr le2 := by
  rcases nonemptyOk_false_elim _ (hall 0 (by omega)) with ⟨e0, h0⟩ | h0 <;>
    rcases nonemptyOk_false_elim _ (hall 1 (by omega)) with ⟨e1, h1⟩ | h1 <;>
      rcases nonemptyOk_false_elim _ (hall 2 (by omega)) with ⟨e2, h2⟩ | h2 <;>
        first
          | exact ⟨some e2, by simp [attemptLoop, h0, h1, h2]⟩
          | exact ⟨some e1, by simp [attemptLoop, h0, h1, h2]⟩
          | exact ⟨some e0, by simp [attemptLoop, h0, h1, h2]⟩
          | exact ⟨le, by simp [attemptLoop, h0, h1, h2]⟩

theorem serviceLoop_first (f : Nat → Nat → Except String (List String)) :
    ∀ (svcs : List String) (i0 : Nat) (le : Option String) (i j : Nat) (L : List String),
      i < svcs.length → j < 3 → f (i0 + i) j = .ok L → L ≠ [] →
      (∀ i2 j2, i2 < i → j2 < 3 → nonemptyOk (f (i0 + i2) j2) = false) →
      (∀ j2, j2 < j → nonemptyOk (f (i0 + i) j2) = false) →
      serviceLoop f i0 svcs le = Sum.inl (svcs.getD i "", L) := by
  intro svcs
  induction svcs with
  | nil =>
    intro i0 le i j L hi
    exact absurd hi (by simp)
  | cons s rest ih =>
    intro i0 le i j L hi hj hok hne hbef hcur
    cases i with
    | zero =>
      have ha : attemptLoop (f i0) [0, 1, 2] le = Sum.inl L := by
        have h2 : i0 + 0 = i0 := by omega
        have := attemptLoop_first (f (i0 + 0)) le j L hj hok hne hcur
        rwa [h2] at this
      simp [serviceLoop, ha]
    | succ i2 =>
      have h0 : ∀ j2, j2 < 3 → nonemptyOk (f i0 j2) = false := by
        intro j2 hj2
        have := hbef 0 j2 (by omega) hj2
        rwa [Nat.add_zero] at this
      obtain ⟨le2, hle2⟩ := attemptLoop_none (f i0) le h0
      have hrec := ih (i0 + 1) le2 i2 j L (by simpa using hi) hj
        (by
          have h3 : i0 + 1 + i2 = i0 + (i2 + 1) := by omega
          rw [h3]; exact hok)
        hne
        (fun i3 j3 hi3 hj3 => by
          have h3 : i0 + 1 + i3 = i0 + (i3 + 1) := by omega
          rw [h3]; exact hbef (i3 + 1) j3 (by omega) hj3)
        (fun j3 hj3 => by
          have h3 : i0 + 1 + i2 = i0 + (i2 + 1) := by omega
          rw [h3]; exact hcur j3 hj3)
      simp [serviceLoop, hle2, hrec]

theorem attemptLoop_all_error (g : Nat → Except String (List String)) (le : Option String)
    (hall : ∀ j, j < 3 → ∃ e, g j = .error e) :
    ∃ m, attemptLoop g [0, 1, 2] le = Sum.inr (some m) := by
  obtain ⟨e0, h0⟩ := hall 0 (by omega)
  obtain ⟨e1, h1⟩ := hall 1 (by omega)
  obtain ⟨e2, h2⟩ := hall 2 (by omega)
  exact ⟨e2, by simp [attemptLoop, h0, h1, h2]⟩

theorem serviceLoop_all_error (f : Nat → Nat → Except String (List String)) :
    ∀ (svcs : List String) (i0 : Nat) (le : Option String),
      svcs ≠ [] →
      (∀ i j, i < svcs.length → j < 3 → ∃ e, f (i0 + i) j = .error e) →
      ∃ m, serviceLoop f i0 svcs le = Sum.inr (some m) := by
  intro svcs
  induction svcs with
  | nil =>
    intro i0 le h
    exact absurd rfl h
  | cons s rest ih =>
    intro i0 le _ hall
    obtain ⟨m1, h1⟩ := attemptLoop_all_error (f i0) le (fun j hj => by
      have := hall 0 j (by simp) hj
      rwa [Nat.add_zero] at this)
    cases rest with
    | nil => exact ⟨m1, by simp [serviceLoop, h1]⟩
    | cons r rrest =>
      obtain ⟨m2, h2⟩ := ih (i0 + 1) (some m1) (by simp) (fun i j hi hj => by
        have h3 : i0 + 1 + i = i0 + (i + 1) := by omega
        rw [h3]
        exact hall (i + 1) j (by simpa using hi) hj)
      refine ⟨m2, ?_⟩
      simp only [serviceLoop, h1]
      exact h2

/-- C5: the log-collection loop walks the candidate services in priority
order with 3 read attempts each and returns the first non-empty line
list together with its service; when every attempt of every candidate
returns zero lines and no read errors, it returns the first candidate
with an empty list without raising; when every attempt of every
candidate fails with a transport error, it surfaces a fatal error. -/
theorem c5_collect_lines :
    (∀ (s : String) (rest : List String) (f : Nat → Nat → Except String (List String)),
        (∀ i j, f i j = Except.ok []) →
        collectKwinLines (s :: rest) f = Except.ok (s, []))
    ∧ (∀ (services : List String) (f : Nat → Nat → Except String (List String))
        (i j : Nat) (L : List String),
        i < services.length → j < 3 → f i j = Except.ok L → L ≠ [] →
        (∀ i2 j2, i2 < i → j2 < 3 → nonemptyOk (f i2 j2) = false) →
        (∀ j2, j2 < j → nonemptyOk (f i j2) = false) →
        collectKwinLines services f = Except.ok (services.getD i "", L))
    ∧ (∀ (services : List String) (f : Nat → Nat → Except String (List String)),
        services ≠ [] →
        (∀ i j, i < services.length → j < 3 → ∃ e, f i j = Except.error e) →
        ∃ m, collectKwinLines services f = Except.error (CollectErr.runtime m)) := by
  refine ⟨?_, ?_, ?_⟩
  · intro s rest f h
    have hs := serviceLoop_all_empty f (s :: rest) 0 none h
    simp [collectKwinLines, hs]
  · intro services f i j L hi hj hok hne hbef hcur
    have hs := serviceLoop_first f services 0 none i j L hi hj
      (by rwa [Nat.zero_add]) hne
      (fun i2 j2 h1 h2 => by rw [Nat.zero_add]; exact hbef i2 j2 h1 h2)
      (fun j2 h1 => by rw [Nat.zero_add]; exact hcur j2 h1)
    simp [collectKwinLines, hs]
  · intro services f hne hall
    obtain ⟨m, hm⟩ := serviceLoop_all_error f services 0 none hne
      (fun i j hi hj => by rw [Nat.zero_add]; exact hall i j hi hj)
    exact ⟨m, by simp [collectKwinLines, hm]⟩

/-- C5, witness: the four default candidates all returning zero lines
across every attempt yield the first candidate with an empty list
(Scenario C), and a persistent journalctl error on a single candidate
surfaces as a fatal runtime error. -/
theorem c5_collect_lines_witness :
    collectKwinLines (getServiceCandidates none) (fun _ _ => Except.ok [])
      = Except.ok ("plasma-kwin_wayland.service", [])
    ∧ ∃ m, collectKwinLines ["kwin_wayland.service"]
        (fun _ _ => Except.error "journalctl error")
          = Except.error (CollectErr.runtime m) :=
  ⟨c5_collect_lines.1 "plasma-kwin_wayland.service"
      ["plasma-kwin_x11.service", "kwin_wayland.service", "kwin_x11.service"]
      (fun _ _ => Except.ok []) (fun _ _ => rfl),
    c5_collect_lines.2.2 ["kwin_wayland.service"]
      (fun _ _ => Except.error "journalctl error")
      (by decide) (fun i j _ _ => ⟨"journalctl error", rfl⟩)⟩

end KwinDashboard
